import Mathlib

/-!
A shallow embedding of the `mmap` Go package (memory-mapped file I/O with a
snapshot transaction layer and a big-endian positional codec), together with
proofs about the embedded operations.

Conventions:
* Go byte slices are `List Nat`, each element a byte value (kept `< 256` by
  every operation that stores one).
* Go `int64` values are Lean `Int`; where the source can overflow we apply the
  two's-complement wrap explicitly (`wrap64`, `int64OfUintptr`).
* Go `uintptr` arguments are `Nat`.
* A fallible Go call returning `(n int, err error)` is modelled by returning
  the mutated value, the count and an `Option GoError`; a Go runtime panic
  (slice bounds out of range, oversized `make`) is a distinct result
  constructor.
-/

namespace Mmap

/-- Errors of the `mmap` package (`errors.go` / `error.go`), plus `io.EOF`
which `ReadAt`/`WriteAt` return on a short transfer.  The repository holds two
revisions of the error file: `ErrorNotAllowed` is the older name (used by
`mmap.go`) and `ErrorIllegalOperation` the newer one (used by
`transaction.go` and the platform backends) for the "operation disallowed"
category the spec calls IllegalOperation. -/
inductive GoError where
  | closed
  | illegalOperation (operation : String)
  | notAllowed (operation : String)
  | invalidOffset (offset : Int)
  | invalidLength (length : Nat)
  | transactionClosed
  | partialCommit (bytesCommitted : Nat)
  | eof
deriving DecidableEq, Repr

/-- The device-independent state of a `Mapping`: the mapped byte window and the
write permission.  `memory = none` models the nil slice of a closed mapping
(the field is named `data` and the flag `canWrite` in the `mmap.go` revision;
`memory` and `writable` in `transaction.go` and the platform backends). -/
structure Mapping where
  memory : Option (List Nat)
  writable : Bool
deriving DecidableEq, Repr

/-- Go's `copy(dst, src)`: overwrites the first `min |dst| |src|` cells of
`dst` with the corresponding cells of `src` and reports that count. -/
def goCopy (dst src : List Nat) : List Nat :=
  src.take dst.length ++ dst.drop src.length

/-- The count `copy(dst, src)` returns. -/
def goCopyCount (dst src : List Nat) : Nat :=
  min dst.length src.length

/-- `Mapping.ReadAt` (`mmap.go` lines 95-107): closed check, offset bounds
check, then `n := copy(buffer, data[offset:])`, returning `io.EOF` when
`n < len(buffer)`.  The result is the caller's buffer after the copy, the
count and the error. -/
def Mapping.ReadAt (mapping : Mapping) (buffer : List Nat) (offset : Int) :
    List Nat × Nat × Option GoError :=
  match mapping.memory with
  | none => (buffer, 0, some .closed)
  | some data =>
    if offset < 0 ∨ offset ≥ (data.length : Int) then
      (buffer, 0, some (.invalidOffset offset))
    else
      let src := data.drop offset.toNat
      let n := goCopyCount buffer src
      let buffer' := goCopy buffer src
      if n < buffer.length then (buffer', n, some .eof) else (buffer', n, none)

/-- `Mapping.WriteAt` (`mmap.go` lines 111-126): closed check, write-permission
check (`ErrorNotAllowed{Operation: "write"}` in this revision), offset bounds
check, then `n := copy(data[offset:], buffer)` with `io.EOF` on a short
write.  The result is the mapping after the in-place copy, the count and the
error. -/
def Mapping.WriteAt (mapping : Mapping) (buffer : List Nat) (offset : Int) :
    Mapping × Nat × Option GoError :=
  match mapping.memory with
  | none => (mapping, 0, some .closed)
  | some data =>
    if ¬ mapping.writable then
      (mapping, 0, some (.notAllowed "write"))
    else if offset < 0 ∨ offset ≥ (data.length : Int) then
      (mapping, 0, some (.invalidOffset offset))
    else
      let o := offset.toNat
      let dst := data.drop o
      let n := goCopyCount dst buffer
      let data' := data.take o ++ goCopy dst buffer
      if n < buffer.length then
        ({ mapping with memory := some data' }, n, some .eof)
      else
        ({ mapping with memory := some data' }, n, none)

/-- Reinterpretation of a Go `uintptr` (an unsigned 64-bit word on the two
supported targets) as an `int64`, as in `int64(length)`. -/
def int64OfUintptr (length : Nat) : Int :=
  if length < 2 ^ 63 then (length : Int) else (length : Int) - 2 ^ 64

/-- Two's-complement wrap of an `int64` arithmetic result. -/
def wrap64 (x : Int) : Int :=
  (x + 2 ^ 63) % 2 ^ 64 - 2 ^ 63

/-- Largest Go `int` on the supported 64-bit targets
(`maxInt = int(^uint(0) >> 1)`). -/
def maxInt : Nat := 2 ^ 63 - 1

/-- The state of a `Transaction` (`transaction.go`): start offset, exclusive
end offset, and the owned snapshot (`none` once the transaction is
finalized).  The parent mapping is not stored; the operations that touch it
(`Commit`) take it as an explicit argument. -/
structure Transaction where
  offset : Int
  highOffset : Int
  snapshot : Option (List Nat)
deriving DecidableEq, Repr

/-- Result of `NewTransaction`: a transaction, a returned error, or a Go
runtime panic (oversized `make([]byte, length)` or an inverted slice
expression `m.memory[offset:highOffset]`). -/
inductive TxNewResult where
  | ok (tx : Transaction)
  | error (e : GoError)
  | panics
deriving DecidableEq, Repr

/-- `NewTransaction` (`transaction.go` lines 19-42): closed check, writability
check, offset bounds check, then `highOffset := offset + int64(length)` (which
wraps for `length ≥ 2^63` or an overflowing sum), the
`length == 0 || highOffset > int64(len(m.memory))` check, allocation of the
snapshot (`make([]byte, length)` panics when `length > maxInt`) and
`copy(tx.snapshot, m.memory[offset:highOffset])` (the slice expression panics
when `highOffset < offset`). -/
def NewTransaction (m : Mapping) (offset : Int) (length : Nat) : TxNewResult :=
  match m.memory with
  | none => .error .closed
  | some memory =>
    if ¬ m.writable then .error (.illegalOperation "transaction")
    else if offset < 0 ∨ offset ≥ (memory.length : Int) then
      .error (.invalidOffset offset)
    else
      let highOffset := wrap64 (offset + int64OfUintptr length)
      if length = 0 ∨ highOffset > (memory.length : Int) then
        .error (.invalidLength length)
      else if length > maxInt then .panics
      else if highOffset < offset then .panics
      else
        let src := (memory.take highOffset.toNat).drop offset.toNat
        .ok { offset := offset, highOffset := highOffset,
              snapshot := some (goCopy (List.replicate length 0) src) }

/-- Result of a `Transaction.ReadAt` call: the caller's buffer after the copy,
the count and the error, or a Go runtime panic from the slice expression
`tx.snapshot[offset-tx.offset:]`. -/
inductive TxReadResult where
  | ret (buf : List Nat) (n : Nat) (err : Option GoError)
  | panics
deriving DecidableEq, Repr

/-- Result of a `Transaction.WriteAt` call: the transaction after the in-place
copy, the count and the error, or a Go runtime panic from the slice
expression `tx.snapshot[offset-tx.offset:]` (whose index is negative whenever
`0 ≤ offset < tx.offset`). -/
inductive TxWriteResult where
  | ret (tx : Transaction) (n : Nat) (err : Option GoError)
  | panics
deriving DecidableEq, Repr

/-- `Transaction.ReadAt` (`transaction.go` lines 56-68): closed check, the
`offset < tx.offset || offset >= tx.highOffset` bounds check, then
`n := copy(buf, tx.snapshot[offset-tx.offset:])` with `io.EOF` on a short
read. -/
def Transaction.ReadAt (tx : Transaction) (buf : List Nat) (offset : Int) :
    TxReadResult :=
  match tx.snapshot with
  | none => .ret buf 0 (some .transactionClosed)
  | some snapshot =>
    if offset < tx.offset ∨ offset ≥ tx.highOffset then
      .ret buf 0 (some (.invalidOffset offset))
    else
      let k := offset - tx.offset
      if k < 0 ∨ k > (snapshot.length : Int) then .panics
      else
        let src := snapshot.drop k.toNat
        let n := goCopyCount buf src
        if n < buf.length then .ret (goCopy buf src) n (some .eof)
        else .ret (goCopy buf src) n none

/-- `Transaction.WriteAt` (`transaction.go` lines 72-84): closed check, the
`offset < 0 || offset >= tx.highOffset` bounds check (note: `offset < 0`, not
`offset < tx.offset` as in `ReadAt`), then
`n := copy(tx.snapshot[offset-tx.offset:], buf)` with `io.EOF` on a short
write. -/
def Transaction.WriteAt (tx : Transaction) (buf : List Nat) (offset : Int) :
    TxWriteResult :=
  match tx.snapshot with
  | none => .ret tx 0 (some .transactionClosed)
  | some snapshot =>
    if offset < 0 ∨ offset ≥ tx.highOffset then
      .ret tx 0 (some (.invalidOffset offset))
    else
      let k := offset - tx.offset
      if k < 0 ∨ k > (snapshot.length : Int) then .panics
      else
        let dst := snapshot.drop k.toNat
        let n := goCopyCount dst buf
        let snapshot' := snapshot.take k.toNat ++ goCopy dst buf
        if n < buf.length then
          .ret { tx with snapshot := some snapshot' } n (some .eof)
        else
          .ret { tx with snapshot := some snapshot' } n none

/-- Result of a `Transaction.Commit` call: the parent mapping and the
transaction after the call plus a returned error, or a Go runtime panic from
the slice expression `tx.mapping.memory[tx.offset:tx.highOffset]`. -/
inductive TxCommitResult where
  | ret (m : Mapping) (tx : Transaction) (err : Option GoError)
  | panics
deriving DecidableEq, Repr

/-- `Transaction.Commit` (`transaction.go` lines 87-99): transaction-closed
check, mapping-closed check, then
`n := copy(tx.mapping.memory[tx.offset:tx.highOffset], tx.snapshot)`; on a
short copy it returns `ErrorPartialCommit` without clearing the snapshot,
otherwise it clears the snapshot and returns nil. -/
def Transaction.Commit (tx : Transaction) (m : Mapping) : TxCommitResult :=
  match tx.snapshot with
  | none => .ret m tx (some .transactionClosed)
  | some snapshot =>
    match m.memory with
    | none => .ret m tx (some .closed)
    | some memory =>
      if tx.offset < 0 ∨ tx.highOffset < tx.offset ∨
          tx.highOffset > (memory.length : Int) then .panics
      else
        let o := tx.offset.toNat
        let h := tx.highOffset.toNat
        let dst := (memory.take h).drop o
        let n := goCopyCount dst snapshot
        let memory' := memory.take o ++ goCopy dst snapshot ++ memory.drop h
        if n < snapshot.length then
          .ret { m with memory := some memory' } tx (some (.partialCommit n))
        else
          .ret { m with memory := some memory' }
            { tx with snapshot := none } none

/-- `Transaction.Rollback` (`transaction.go` lines 110-116): transaction-closed
check, then the snapshot is discarded; the parent mapping is not read or
written. -/
def Transaction.Rollback (tx : Transaction) : Transaction × Option GoError :=
  match tx.snapshot with
  | none => (tx, some .transactionClosed)
  | some _ => ({ tx with snapshot := none }, none)

/-- The page-alignment arithmetic of `New` (`mmap_linux_amd64.go` lines
103-117; `mmap_windows_amd64.go` lines 75-101 computes identically):
`outerOffset := offset / pageSize` with Go's truncated division (both
arguments are non-negative at this point, the negative-offset check having
already returned). The code passes `outerOffset` to the OS map call as the
file position (`mmap(0, alignedLength, prot, flags, fd, outerOffset)` on
Linux, the split `fileOffset` of `MapViewOfFile` on Windows). -/
def newOuterOffset (offset pageSize : Int) : Int :=
  Int.tdiv offset pageSize

/-- `innerOffset := offset % pageSize` (Go's truncated remainder). -/
def newInnerOffset (offset pageSize : Int) : Int :=
  Int.tmod offset pageSize

/-- `m.alignedLength = uintptr(innerOffset) + length`: the mapped length is
the requested length extended by the remainder. -/
def newAlignedLength (offset pageSize : Int) (length : Nat) : Nat :=
  (newInnerOffset offset pageSize).toNat + length

/-- The file byte that caller offset `c` addresses after construction: the OS
maps the file starting at the byte position passed to the map call
(`newOuterOffset`), and the caller's base address is the mapped base
displaced by `innerOffset`
(`m.address = m.alignedAddress + uintptr(innerOffset)`). -/
def newAddressedFileByte (offset pageSize c : Int) : Int :=
  newOuterOffset offset pageSize + newInnerOffset offset pageSize + c

/-- Follows the spec's words, for comparison with `newOuterOffset`: "Rounds
the requested offset down to the nearest page boundary" — the aligned byte
position the spec says is passed to the OS map call. -/
def specAlignedOffset (offset pageSize : Int) : Int :=
  Int.tdiv offset pageSize * pageSize

/-- A mapping paired with a live transaction over it: the combined state on
which a transaction-layer call acts. -/
structure SysState where
  m : Mapping
  tx : Transaction
deriving DecidableEq, Repr

/-- One `Transaction.WriteAt` call lifted to the combined state: the source
(`transaction.go` lines 72-84) assigns only to `tx.snapshot`, so the mapping
component is carried through unchanged; a panicking call leaves the state as
it was (the program terminates there). -/
def sysTxWrite (s : SysState) (buf : List Nat) (offset : Int) : SysState :=
  match Transaction.WriteAt s.tx buf offset with
  | .ret tx' _ _ => { s with tx := tx' }
  | .panics => s

/-- A sequence of transaction writes applied to the combined state. -/
def runTxWrites (s : SysState) : List (List Nat × Int) → SysState
  | [] => s
  | (buf, offset) :: ops => runTxWrites (sysTxWrite s buf offset) ops

/-- `Transaction.Rollback` lifted to the combined state: the source
(`transaction.go` lines 110-116) reads and writes only `tx.snapshot`. -/
def sysRollback (s : SysState) : SysState × Option GoError :=
  let r := Transaction.Rollback s.tx
  ({ s with tx := r.1 }, r.2)

end Mmap

namespace Segment

/-- Errors of the `segment` package (`segment/errors.go`), plus a wrapper for
an error returned verbatim by the underlying store. -/
inductive SegError where
  | unsupportedType (index : Nat)
  | partialRead (index : Nat) (offset : Int) (numBytes : Nat)
  | partialWrite (index : Nat) (offset : Int) (numBytes : Nat)
  | store (e : Mmap.GoError)
deriving DecidableEq, Repr

/-- A random-access byte store, the `ReadWriterAt` interface of
`segment/segment.go`: a state type `σ` with Go-style `ReadAt` (fills the
caller's buffer, reports the count and an error) and `WriteAt` (returns the
mutated store, the count and an error). -/
structure Store (σ : Type) where
  readAt : σ → List Nat → Int → List Nat × Nat × Option Mmap.GoError
  writeAt : σ → List Nat → Int → σ × Nat × Option Mmap.GoError

/-- `Segment.read` (`segment/segment.go` lines 29-36): a store error is
returned as-is; a short read (`n < len(buf)`) without a store error becomes
`ErrorPartialRead{index, offset, n}`. -/
def read {σ : Type} (st : Store σ) (s : σ) (buf : List Nat) (offset : Int)
    (index : Nat) : List Nat × Option SegError :=
  match st.readAt s buf offset with
  | (buf', _, some e) => (buf', some (.store e))
  | (buf', n, none) =>
    if n < buf.length then (buf', some (.partialRead index offset n))
    else (buf', none)

/-- `Segment.write` (`segment/segment.go` lines 38-45): a store error is
returned as-is; without one, `ErrorPartialWrite{index, offset, n}` is
returned only when `n < 1` (note: not `n < len(buf)` as in `read`). -/
def write {σ : Type} (st : Store σ) (s : σ) (buf : List Nat) (offset : Int)
    (index : Nat) : σ × Option SegError :=
  match st.writeAt s buf offset with
  | (s', _, some e) => (s', some (.store e))
  | (s', n, none) =>
    if n < 1 then (s', some (.partialWrite index offset n))
    else (s', none)

/-- An operand of `Set`/`Inc`/`Dec`: the dynamic type switch of the source
recognizes `uint8`/`uint16`/`uint32`/`uint64` and rejects everything else
(`unsupported`). -/
inductive Value where
  | u8 (x : Nat)
  | u16 (x : Nat)
  | u32 (x : Nat)
  | u64 (x : Nat)
  | unsupported
deriving DecidableEq, Repr

/-- An output slot of `Get`: the dynamic type switch recognizes pointers to
the four unsigned widths. -/
inductive Slot where
  | u8
  | u16
  | u32
  | u64
  | unsupported
deriving DecidableEq, Repr

/-- Encoded byte width of an operand (`make([]byte, w)` in each branch). -/
def Value.width : Value → Nat
  | .u8 _ => 1
  | .u16 _ => 2
  | .u32 _ => 4
  | .u64 _ => 8
  | .unsupported => 0

/-- Payload of a supported operand. -/
def Value.payload : Value → Nat
  | .u8 x => x
  | .u16 x => x
  | .u32 x => x
  | .u64 x => x
  | .unsupported => 0

/-- The `Get` slot of the same width as an operand. -/
def Value.toSlot : Value → Slot
  | .u8 _ => .u8
  | .u16 _ => .u16
  | .u32 _ => .u32
  | .u64 _ => .u64
  | .unsupported => .unsupported

/-- Big-endian encoding of `x` into `w` bytes
(`binary.BigEndian.PutUintN`; the value encoded is `x % 256 ^ w`). -/
def beBytes : Nat → Nat → List Nat
  | 0, _ => []
  | w + 1, x => x / 256 ^ w % 256 :: beBytes w x

/-- Big-endian decoding of a byte list (`binary.BigEndian.UintN`). -/
def beDecode (bytes : List Nat) : Nat :=
  bytes.foldl (fun acc b => acc * 256 + b) 0

/-- Go's wrapping subtraction on a `w`-byte unsigned integer
(`UintN(buf) - val`). -/
def wsub (w d x : Nat) : Nat :=
  (((d : Int) - x) % (256 ^ w : Int)).toNat

/-- The loop of `Segment.Set` (`segment/segment.go` lines 91-127), with the
running operand index made explicit: encode each supported operand big-endian,
write it through `Segment.write`, stop at the first error, advance the offset
by the operand's width (`seg.next`). -/
def setLoop {σ : Type} (st : Store σ) : σ → Int → Nat → List Value →
    σ × Option SegError
  | s, _, _, [] => (s, none)
  | s, offset, i, val :: rest =>
    match val with
    | .unsupported => (s, some (.unsupportedType i))
    | .u8 x =>
      match write st s (beBytes 1 x) offset i with
      | (s', some e) => (s', some e)
      | (s', none) => setLoop st s' (offset + 1) (i + 1) rest
    | .u16 x =>
      match write st s (beBytes 2 x) offset i with
      | (s', some e) => (s', some e)
      | (s', none) => setLoop st s' (offset + 2) (i + 1) rest
    | .u32 x =>
      match write st s (beBytes 4 x) offset i with
      | (s', some e) => (s', some e)
      | (s', none) => setLoop st s' (offset + 4) (i + 1) rest
    | .u64 x =>
      match write st s (beBytes 8 x) offset i with
      | (s', some e) => (s', some e)
      | (s', none) => setLoop st s' (offset + 8) (i + 1) rest

/-- `Segment.Set`: the loop started at operand index 0. -/
def Set {σ : Type} (st : Store σ) (s : σ) (offset : Int) (v : List Value) :
    σ × Option SegError :=
  setLoop st s offset 0 v

/-- The loop of `Segment.Get` (`segment/segment.go` lines 52-88): for each
supported slot, read its width into a zeroed scratch buffer through
`Segment.read`, decode big-endian, stop at the first error, advance the
offset.  The decoded values stand for the assignments through the caller's
pointers. -/
def getLoop {σ : Type} (st : Store σ) : σ → Int → Nat → List Slot →
    List Nat × Option SegError
  | _, _, _, [] => ([], none)
  | s, offset, i, slot :: rest =>
    match slot with
    | .unsupported => ([], some (.unsupportedType i))
    | .u8 =>
      match read st s (List.replicate 1 0) offset i with
      | (_, some e) => ([], some e)
      | (buf, none) =>
        let r := getLoop st s (offset + 1) (i + 1) rest
        (beDecode buf :: r.1, r.2)
    | .u16 =>
      match read st s (List.replicate 2 0) offset i with
      | (_, some e) => ([], some e)
      | (buf, none) =>
        let r := getLoop st s (offset + 2) (i + 1) rest
        (beDecode buf :: r.1, r.2)
    | .u32 =>
      match read st s (List.replicate 4 0) offset i with
      | (_, some e) => ([], some e)
      | (buf, none) =>
        let r := getLoop st s (offset + 4) (i + 1) rest
        (beDecode buf :: r.1, r.2)
    | .u64 =>
      match read st s (List.replicate 8 0) offset i with
      | (_, some e) => ([], some e)
      | (buf, none) =>
        let r := getLoop st s (offset + 8) (i + 1) rest
        (beDecode buf :: r.1, r.2)

/-- `Segment.Get`: the loop started at operand index 0. -/
def Get {σ : Type} (st : Store σ) (s : σ) (offset : Int) (v : List Slot) :
    List Nat × Option SegError :=
  getLoop st s offset 0 v

/-- The loop of `Segment.Inc` (`segment/segment.go` lines 130-178): for each
supported operand, read its width, add the delta with the width's native
wraparound, write the result back, stop at the first error, advance the
offset. -/
def incLoop {σ : Type} (st : Store σ) : σ → Int → Nat → List Value →
    σ × Option SegError
  | s, _, _, [] => (s, none)
  | s, offset, i, val :: rest =>
    match val with
    | .unsupported => (s, some (.unsupportedType i))
    | .u8 x =>
      match read st s (List.replicate 1 0) offset i with
      | (_, some e) => (s, some e)
      | (buf, none) =>
        match write st s (beBytes 1 (beDecode buf + x)) offset i with
        | (s', some e) => (s', some e)
        | (s', none) => incLoop st s' (offset + 1) (i + 1) rest
    | .u16 x =>
      match read st s (List.replicate 2 0) offset i with
      | (_, some e) => (s, some e)
      | (buf, none) =>
        match write st s (beBytes 2 (beDecode buf + x)) offset i with
        | (s', some e) => (s', some e)
        | (s', none) => incLoop st s' (offset + 2) (i + 1) rest
    | .u32 x =>
      match read st s (List.replicate 4 0) offset i with
      | (_, some e) => (s, some e)
      | (buf, none) =>
        match write st s (beBytes 4 (beDecode buf + x)) offset i with
        | (s', some e) => (s', some e)
        | (s', none) => incLoop st s' (offset + 4) (i + 1) rest
    | .u64 x =>
      match read st s (List.replicate 8 0) offset i with
      | (_, some e) => (s, some e)
      | (buf, none) =>
        match write st s (beBytes 8 (beDecode buf + x)) offset i with
        | (s', some e) => (s', some e)
        | (s', none) => incLoop st s' (offset + 8) (i + 1) rest

/-- `Segment.Inc`: the loop started at operand index 0. -/
def Inc {σ : Type} (st : Store σ) (s : σ) (offset : Int) (v : List Value) :
    σ × Option SegError :=
  incLoop st s offset 0 v

/-- The loop of `Segment.Dec` (`segment/segment.go` lines 181-229): as
`incLoop` with wrapping subtraction in place of addition. -/
def decLoop {σ : Type} (st : Store σ) : σ → Int → Nat → List Value →
    σ × Option SegError
  | s, _, _, [] => (s, none)
  | s, offset, i, val :: rest =>
    match val with
    | .unsupported => (s, some (.unsupportedType i))
    | .u8 x =>
      match read st s (List.replicate 1 0) offset i with
      | (_, some e) => (s, some e)
      | (buf, none) =>
        match write st s (beBytes 1 (wsub 1 (beDecode buf) x)) offset i with
        | (s', some e) => (s', some e)
        | (s', none) => decLoop st s' (offset + 1) (i + 1) rest
    | .u16 x =>
      match read st s (List.replicate 2 0) offset i with
      | (_, some e) => (s, some e)
      | (buf, none) =>
        match write st s (beBytes 2 (wsub 2 (beDecode buf) x)) offset i with
        | (s', some e) => (s', some e)
        | (s', none) => decLoop st s' (offset + 2) (i + 1) rest
    | .u32 x =>
      match read st s (List.replicate 4 0) offset i with
      | (_, some e) => (s, some e)
      | (buf, none) =>
        match write st s (beBytes 4 (wsub 4 (beDecode buf) x)) offset i with
        | (s', some e) => (s', some e)
        | (s', none) => decLoop st s' (offset + 4) (i + 1) rest
    | .u64 x =>
      match read st s (List.replicate 8 0) offset i with
      | (_, some e) => (s, some e)
      | (buf, none) =>
        match write st s (beBytes 8 (wsub 8 (beDecode buf) x)) offset i with
        | (s', some e) => (s', some e)
        | (s', none) => decLoop st s' (offset + 8) (i + 1) rest

/-- `Segment.Dec`: the loop started at operand index 0. -/
def Dec {σ : Type} (st : Store σ) (s : σ) (offset : Int) (v : List Value) :
    σ × Option SegError :=
  decLoop st s offset 0 v

/-- A `Mapping` used as the segment's underlying store, as in
`segment/mapped.go` (`MappedSegment`). -/
def mappingStore : Store Mmap.Mapping where
  readAt m buf offset := Mmap.Mapping.ReadAt m buf offset
  writeAt m buf offset := Mmap.Mapping.WriteAt m buf offset

/-- Encoded byte width of a whole operand list. -/
def encodedSize (v : List Value) : Nat :=
  (v.map Value.width).sum

/-- Decoded byte width of a `Get` slot. -/
def Slot.width : Slot → Nat
  | .u8 => 1
  | .u16 => 2
  | .u32 => 4
  | .u64 => 8
  | .unsupported => 0

/-- A byte-list store whose `WriteAt` writes only the first byte of the
buffer and reports one byte written with no error: a `ReadWriterAt`
implementation that makes short writes without returning an error. -/
def oneByteStore : Store (List Nat) where
  readAt s buf offset :=
    let src := s.drop offset.toNat
    (Mmap.goCopy buf src, Mmap.goCopyCount buf src, none)
  writeAt s buf offset :=
    (s.take offset.toNat ++ buf.take 1 ++ s.drop (offset.toNat + 1),
      min 1 buf.length, none)

end Segment

section Examples

example :
    Mmap.Mapping.ReadAt ⟨some [1, 2, 3, 4], true⟩ [0, 0] 1 =
      ([2, 3], 2, none) := by
  decide

example :
    Mmap.Mapping.ReadAt ⟨some [1, 2, 3, 4], true⟩ [0, 0, 0] 2 =
      ([3, 4, 0], 2, some .eof) := by
  decide

example :
    Mmap.Mapping.WriteAt ⟨some [1, 2, 3, 4], true⟩ [9, 9] 1 =
      (⟨some [1, 9, 9, 4], true⟩, 2, none) := by
  decide

example :
    Mmap.Mapping.WriteAt ⟨some [1, 2], false⟩ [9] 0 =
      (⟨some [1, 2], false⟩, 0, some (.notAllowed "write")) := by
  decide

example :
    Mmap.NewTransaction ⟨some [10, 11, 12, 13], true⟩ 2 2 =
      .ok ⟨2, 4, some [12, 13]⟩ := by
  decide

example :
    Mmap.NewTransaction ⟨some [10, 11], true⟩ 0 0 =
      .error (.invalidLength 0) := by
  decide

example :
    Mmap.Transaction.ReadAt ⟨2, 4, some [12, 13]⟩ [0] 0 =
      .ret [0] 0 (some (.invalidOffset 0)) := by
  decide

example :
    Mmap.Transaction.WriteAt ⟨2, 4, some [12, 13]⟩ [7] 3 =
      .ret ⟨2, 4, some [12, 7]⟩ 1 none := by
  decide

example :
    Mmap.Transaction.Commit ⟨2, 4, some [7, 8]⟩ ⟨some [10, 11, 12, 13], true⟩ =
      .ret ⟨some [10, 11, 7, 8], true⟩ ⟨2, 4, none⟩ none := by
  decide

example :
    Segment.Set Segment.mappingStore ⟨some [0, 0, 0], true⟩ 0 [.u16 0x0102] =
      (⟨some [1, 2, 0], true⟩, none) := by
  decide

example :
    Segment.Get Segment.mappingStore ⟨some [1, 2, 0], true⟩ 0 [.u16] =
      ([0x0102], none) := by
  decide

example :
    Segment.Inc Segment.mappingStore ⟨some [255], true⟩ 0 [.u8 1] =
      (⟨some [0], true⟩, none) := by
  decide

example :
    Segment.Dec Segment.mappingStore ⟨some [0, 0], true⟩ 0 [.u16 1] =
      (⟨some [255, 255], true⟩, none) := by
  decide

end Examples

namespace Mmap

theorem goCopy_of_length_le {dst src : List Nat} (h : dst.length ≤ src.length) :
    goCopy dst src = src.take dst.length := by
  unfold goCopy
  rw [List.drop_eq_nil_of_le h, List.append_nil]

theorem goCopy_of_length_eq {dst src : List Nat} (h : dst.length = src.length) :
    goCopy dst src = src := by
  rw [goCopy_of_length_le h.le, h, List.take_length]

theorem goCopyCount_of_length_le {dst src : List Nat}
    (h : dst.length ≤ src.length) : goCopyCount dst src = dst.length := by
  unfold goCopyCount
  omega

/-- In-bounds `Mapping.ReadAt` whose buffer fits in the remaining window:
the full buffer is filled from the mapped bytes and no error is returned. -/
theorem Mapping.readAt_full (mem buffer : List Nat) (o : Nat) (w : Bool)
    (ho : o < mem.length) (h : o + buffer.length ≤ mem.length) :
    Mapping.ReadAt ⟨some mem, w⟩ buffer o =
      ((mem.drop o).take buffer.length, buffer.length, none) := by
  have hcond : ¬((o : Int) < 0 ∨ (o : Int) ≥ ((mem.length : Nat) : Int)) := by
    omega
  have hlen : buffer.length ≤ (mem.drop o).length := by
    rw [List.length_drop]
    omega
  simp only [Mapping.ReadAt, Int.toNat_natCast]
  rw [if_neg hcond, goCopy_of_length_le hlen, goCopyCount_of_length_le hlen,
    if_neg (lt_irrefl _)]

/-- In-bounds `Mapping.WriteAt` whose buffer fits in the remaining window:
the buffer replaces the mapped bytes at the offset and no error is
returned. -/
theorem Mapping.writeAt_full (mem buffer : List Nat) (o : Nat)
    (ho : o < mem.length) (h : o + buffer.length ≤ mem.length) :
    Mapping.WriteAt ⟨some mem, true⟩ buffer o =
      (⟨some (mem.take o ++ buffer ++ mem.drop (o + buffer.length)), true⟩,
        buffer.length, none) := by
  have hcond : ¬((o : Int) < 0 ∨ (o : Int) ≥ ((mem.length : Nat) : Int)) := by
    omega
  have hlen : buffer.length ≤ (mem.drop o).length := by
    rw [List.length_drop]
    omega
  have hmin : goCopyCount (mem.drop o) buffer = buffer.length := by
    unfold goCopyCount
    rw [List.length_drop]
    omega
  simp only [Mapping.WriteAt, Int.toNat_natCast]
  rw [if_neg (by simp), if_neg hcond]
  unfold goCopy
  rw [hmin, List.take_of_length_le hlen, List.drop_drop,
    if_neg (lt_irrefl _)]
  simp [List.append_assoc]

theorem wrap64_eq_self {x : Int} (h1 : -2 ^ 63 ≤ x) (h2 : x < 2 ^ 63) :
    wrap64 x = x := by
  unfold wrap64
  rw [Int.emod_eq_of_lt (by omega) (by omega)]
  ring

theorem int64OfUintptr_of_lt {length : Nat} (h : length < 2 ^ 63) :
    int64OfUintptr length = (length : Int) := by
  unfold int64OfUintptr
  rw [if_pos h]

/-- The successful branch of `NewTransaction`: under in-bounds,
non-overflowing arguments the transaction covers `[offset, offset + length)`
and its snapshot is the mapping's bytes over that range. -/
theorem newTransaction_ok_case (mem : List Nat) (offset : Int) (length : Nat)
    (hsum : offset + (length : Int) < 2 ^ 63) (h0 : 0 ≤ offset)
    (h1 : offset < (mem.length : Int)) (h2 : length ≠ 0)
    (h3 : offset + length ≤ (mem.length : Int)) :
    NewTransaction ⟨some mem, true⟩ offset length =
      .ok ⟨offset, offset + length,
        some ((mem.drop offset.toNat).take length)⟩ := by
  have hlength : length < 2 ^ 63 := by omega
  have hmax : ¬ length > maxInt := by
    unfold maxInt
    omega
  have htn : (offset + (length : Int)).toNat = offset.toNat + length := by
    omega
  simp only [NewTransaction, int64OfUintptr_of_lt hlength,
    wrap64_eq_self (x := offset + (length : Int)) (by omega) hsum]
  rw [if_neg (by simp), if_neg (by omega), if_neg (by omega), if_neg hmax,
    if_neg (by omega), htn]
  have hsrc : ((mem.take (offset.toNat + length)).drop offset.toNat) =
      (mem.drop offset.toNat).take length := by
    rw [List.drop_take]
    congr 1
    omega
  have hlen : (List.replicate length (0 : Nat)).length =
      ((mem.take (offset.toNat + length)).drop offset.toNat).length := by
    rw [List.length_drop, List.length_take, List.length_replicate]
    omega
  rw [goCopy_of_length_eq hlen, hsrc]

/-- For a transaction created by `NewTransaction`, the snapshot is live. -/
theorem newTransaction_ok_isSome {m : Mapping} {offset : Int} {length : Nat}
    {tx : Transaction} (h : NewTransaction m offset length = .ok tx) :
    tx.snapshot.isSome := by
  simp only [NewTransaction] at h
  split at h
  · cases h
  · split at h
    · cases h
    · split at h
      · cases h
      · split at h
        · cases h
        · split at h
          · cases h
          · split at h
            · cases h
            · cases h
              rfl

/-- `Transaction.WriteAt` never discards a live snapshot. -/
theorem Transaction.writeAt_isSome {tx tx' : Transaction} {buf : List Nat}
    {offset : Int} {n : Nat} {e : Option GoError}
    (h : Transaction.WriteAt tx buf offset = .ret tx' n e)
    (hs : tx.snapshot.isSome) : tx'.snapshot.isSome := by
  rcases hsnap : tx.snapshot with _ | sn
  · rw [hsnap] at hs
    cases hs
  · simp only [Transaction.WriteAt, hsnap] at h
    split at h
    · cases h
      exact hs
    · split at h
      · cases h
      · split at h <;> cases h <;> rfl

theorem sysTxWrite_m (s : SysState) (buf : List Nat) (offset : Int) :
    (sysTxWrite s buf offset).m = s.m := by
  unfold sysTxWrite
  rcases h : Transaction.WriteAt s.tx buf offset with ⟨tx', n, e⟩ | _ <;> rfl

theorem sysTxWrite_isSome (s : SysState) (buf : List Nat) (offset : Int)
    (hs : s.tx.snapshot.isSome) :
    (sysTxWrite s buf offset).tx.snapshot.isSome := by
  unfold sysTxWrite
  rcases h : Transaction.WriteAt s.tx buf offset with ⟨tx', n, e⟩ | _
  · exact Transaction.writeAt_isSome h hs
  · exact hs

theorem runTxWrites_m (ops : List (List Nat × Int)) (s : SysState) :
    (runTxWrites s ops).m = s.m := by
  induction ops generalizing s with
  | nil => rfl
  | cons op ops ih =>
    rcases op with ⟨buf, offset⟩
    rw [runTxWrites, ih, sysTxWrite_m]

theorem runTxWrites_isSome (ops : List (List Nat × Int)) (s : SysState)
    (hs : s.tx.snapshot.isSome) :
    (runTxWrites s ops).tx.snapshot.isSome := by
  induction ops generalizing s with
  | nil => exact hs
  | cons op ops ih =>
    rcases op with ⟨buf, offset⟩
    exact ih _ (sysTxWrite_isSome _ _ _ hs)

end Mmap

namespace Mmap

/-- C1: for a transaction over `[2, 4)` of an open writable 4-byte mapping,
`ReadAt` at the out-of-range offset 0 fails with `ErrorInvalidOffset` as the
claim states, but `WriteAt` at the same offset 0 panics (its bounds check is
`offset < 0 || offset >= tx.highOffset`, so `0 ≤ offset < tx.offset` slips
through to the slice expression `tx.snapshot[offset-tx.offset:]` with a
negative index) instead of failing with `ErrorInvalidOffset`. -/
theorem transaction_writeAt_low_offset_panics :
    NewTransaction ⟨some [10, 11, 12, 13], true⟩ 2 2 =
        .ok ⟨2, 4, some [12, 13]⟩ ∧
    Transaction.ReadAt ⟨2, 4, some [12, 13]⟩ [0] 0 =
        .ret [0] 0 (some (.invalidOffset 0)) ∧
    Transaction.WriteAt ⟨2, 4, some [12, 13]⟩ [7] 0 = .panics ∧
    Transaction.WriteAt ⟨2, 4, some [12, 13]⟩ [7] 0 ≠
        .ret ⟨2, 4, some [12, 13]⟩ 0 (some (.invalidOffset 0)) := by
  decide

/-- C5: with page size 4096 and requested offset 4096, the construction
passes `offset / pageSize = 1` — the page index, not the rounded-down byte
offset 4096 — as the file position of the OS map call, so caller offset 0
addresses file byte 1 rather than the requested 4096; the length extension
and the in-memory displacement taken alone behave as described. -/
theorem new_alignment_divergence :
    newOuterOffset 4096 4096 = 1 ∧
    specAlignedOffset 4096 4096 = 4096 ∧
    newOuterOffset 4096 4096 ≠ specAlignedOffset 4096 4096 ∧
    newAlignedLength 4097 4096 100 = 101 ∧
    newAddressedFileByte 4096 4096 0 = 1 ∧
    newAddressedFileByte 4096 4096 0 ≠ 4096 := by
  decide

/-- C6 counterexample: on an open writable 4-byte mapping, a transaction of
length `2^63` has `offset + length > mappingLength`, so the claim demands
`ErrorInvalidLength`; the code instead wraps `int64(length)` to `-2^63`,
passes the length check, and panics in `make([]byte, length)`. -/
theorem newTransaction_overflow_cex :
    NewTransaction ⟨some [0, 0, 0, 0], true⟩ 0 (2 ^ 63) = .panics ∧
    NewTransaction ⟨some [0, 0, 0, 0], true⟩ 0 (2 ^ 63) ≠
      .error (.invalidLength (2 ^ 63)) := by
  decide

/-- C6 (amended: the stated error discipline holds whenever the `int64`
arithmetic cannot overflow, `offset + length < 2^63`;
the counterexample shows an overflowing length panics instead): beginning a
transaction fails with `ErrorClosed` on a closed mapping, with
`ErrorIllegalOperation` on a non-writable one, with `ErrorInvalidOffset` when
the offset is outside `[0, mappingLength)`, with `ErrorInvalidLength` when
the length is zero or the range overruns the mapping; otherwise it returns a
transaction over `[offset, offset + length)` whose snapshot equals the
mapping's current bytes over that range. -/
theorem newTransaction_checks (mem : List Nat) (w : Bool) (offset : Int)
    (length : Nat) (hsum : offset + (length : Int) < 2 ^ 63) :
    (NewTransaction ⟨none, w⟩ offset length = .error .closed) ∧
    (NewTransaction ⟨some mem, false⟩ offset length =
      .error (.illegalOperation "transaction")) ∧
    ((offset < 0 ∨ (mem.length : Int) ≤ offset) →
      NewTransaction ⟨some mem, true⟩ offset length =
        .error (.invalidOffset offset)) ∧
    (0 ≤ offset → offset < (mem.length : Int) →
      (length = 0 ∨ (mem.length : Int) < offset + length) →
      NewTransaction ⟨some mem, true⟩ offset length =
        .error (.invalidLength length)) ∧
    (0 ≤ offset → offset < (mem.length : Int) → length ≠ 0 →
      offset + length ≤ (mem.length : Int) →
      NewTransaction ⟨some mem, true⟩ offset length =
        .ok ⟨offset, offset + length,
          some ((mem.drop offset.toNat).take length)⟩) := by
  refine ⟨rfl, by simp [NewTransaction], ?_, ?_, ?_⟩
  · intro h
    simp only [NewTransaction]
    rw [if_neg (by simp), if_pos h]
  · intro h0 h1 h2
    have hlength : length < 2 ^ 63 := by omega
    simp only [NewTransaction, int64OfUintptr_of_lt hlength,
      wrap64_eq_self (x := offset + (length : Int)) (by omega) hsum]
    rw [if_neg (by simp), if_neg (by omega), if_pos h2]
  · exact fun h0 h1 h2 h3 =>
      newTransaction_ok_case mem offset length hsum h0 h1 h2 h3

/-- Witness for `newTransaction_checks`: a concrete successful begin over
bytes `[6, 7]` of a 3-byte writable mapping. -/
theorem newTransaction_checks_witness :
    NewTransaction ⟨some [5, 6, 7], true⟩ 1 2 = .ok ⟨1, 3, some [6, 7]⟩ := by
  have h := (newTransaction_checks [5, 6, 7] true 1 2
    (by decide)).2.2.2.2 (by decide) (by decide) (by decide) (by decide)
  rw [h]
  decide

/-- C7: `Mapping.ReadAt` fails with `ErrorClosed` on a closed mapping and
with `ErrorInvalidOffset` when the offset is outside `[0, L)`; in range it
copies exactly `min (len buffer) (L - offset)` bytes into the buffer and
signals a short read with the `io.EOF` indicator alongside the count rather
than a hard failure.  `Mapping.WriteAt` is symmetric and additionally fails
with the not-allowed error (`ErrorNotAllowed{"write"}`, the spec's
IllegalOperation category) when the mapping is not writable. -/
theorem mapping_readAt_writeAt_contract (mem buffer : List Nat)
    (offset : Int) (w : Bool) :
    (Mapping.ReadAt ⟨none, w⟩ buffer offset = (buffer, 0, some .closed) ∧
      Mapping.WriteAt ⟨none, w⟩ buffer offset = (⟨none, w⟩, 0, some .closed)) ∧
    ((offset < 0 ∨ (mem.length : Int) ≤ offset) →
      Mapping.ReadAt ⟨some mem, w⟩ buffer offset =
        (buffer, 0, some (.invalidOffset offset)) ∧
      Mapping.WriteAt ⟨some mem, true⟩ buffer offset =
        (⟨some mem, true⟩, 0, some (.invalidOffset offset))) ∧
    (Mapping.WriteAt ⟨some mem, false⟩ buffer offset =
      (⟨some mem, false⟩, 0, some (.notAllowed "write"))) ∧
    (∀ o : Nat, (o : Int) = offset → o < mem.length →
      Mapping.ReadAt ⟨some mem, w⟩ buffer offset =
        ((mem.drop o).take buffer.length ++ buffer.drop (mem.length - o),
          min buffer.length (mem.length - o),
          if buffer.length ≤ mem.length - o then none else some .eof)) ∧
    (∀ o : Nat, (o : Int) = offset → o < mem.length →
      Mapping.WriteAt ⟨some mem, true⟩ buffer offset =
        (⟨some (mem.take o ++
            (buffer.take (mem.length - o) ++ mem.drop (o + buffer.length))),
          true⟩,
          min (mem.length - o) buffer.length,
          if buffer.length ≤ mem.length - o then none else some .eof)) := by
  refine ⟨⟨rfl, rfl⟩, ?_, ?_, ?_, ?_⟩
  · intro h
    constructor
    · simp only [Mapping.ReadAt]
      rw [if_pos h]
    · simp only [Mapping.WriteAt]
      rw [if_neg (by simp), if_pos h]
  · simp only [Mapping.WriteAt]
    rw [if_pos (by simp)]
  · rintro o rfl ho
    have hcond : ¬((o : Int) < 0 ∨ (o : Int) ≥ ((mem.length : Nat) : Int)) := by
      omega
    simp only [Mapping.ReadAt, Int.toNat_natCast]
    rw [if_neg hcond]
    unfold goCopy goCopyCount
    rw [List.length_drop]
    by_cases hc : buffer.length ≤ mem.length - o
    · rw [if_neg (by omega), if_pos hc]
    · rw [if_pos (by omega), if_neg hc]
  · rintro o rfl ho
    have hcond : ¬((o : Int) < 0 ∨ (o : Int) ≥ ((mem.length : Nat) : Int)) := by
      omega
    simp only [Mapping.WriteAt, Int.toNat_natCast]
    rw [if_neg (by simp), if_neg hcond]
    unfold goCopy goCopyCount
    rw [List.length_drop, List.drop_drop]
    by_cases hc : buffer.length ≤ mem.length - o
    · rw [if_neg (by omega), if_pos hc]
    · rw [if_pos (by omega), if_neg hc]

/-- C4: after beginning a transaction on a writable open mapping, any
sequence of transaction writes followed by `Rollback` leaves the parent
mapping exactly as it was before the begin — every byte, in and outside the
transaction's range — because transaction writes mutate only the private
snapshot and `Rollback` only discards it; the rollback itself succeeds. -/
theorem rollback_preserves_mapping (mem : List Nat) (offset : Int)
    (length : Nat) (tx : Transaction) (ops : List (List Nat × Int))
    (hbegin : NewTransaction ⟨some mem, true⟩ offset length = .ok tx) :
    (runTxWrites ⟨⟨some mem, true⟩, tx⟩ ops).m = ⟨some mem, true⟩ ∧
    (sysRollback (runTxWrites ⟨⟨some mem, true⟩, tx⟩ ops)).1.m =
      ⟨some mem, true⟩ ∧
    (sysRollback (runTxWrites ⟨⟨some mem, true⟩, tx⟩ ops)).2 = none := by
  have hm : (runTxWrites ⟨⟨some mem, true⟩, tx⟩ ops).m = ⟨some mem, true⟩ :=
    runTxWrites_m ops _
  have hs : (runTxWrites ⟨⟨some mem, true⟩, tx⟩ ops).tx.snapshot.isSome :=
    runTxWrites_isSome ops _ (newTransaction_ok_isSome hbegin)
  rcases hsn : (runTxWrites ⟨⟨some mem, true⟩, tx⟩ ops).tx.snapshot with _ | sn
  · rw [hsn] at hs
    cases hs
  · exact ⟨hm, by simp only [sysRollback, Transaction.Rollback, hsn]; exact hm,
      by simp only [sysRollback, Transaction.Rollback, hsn]⟩

/-- Witness for `rollback_preserves_mapping`: a write into a live transaction
over a 3-byte zero mapping followed by rollback leaves the mapping's bytes
all zero. -/
theorem rollback_preserves_mapping_witness :
    (sysRollback (runTxWrites ⟨⟨some [0, 0, 0], true⟩, ⟨0, 3, some [0, 0, 0]⟩⟩
        [([7, 8], 1)])).1.m = ⟨some [0, 0, 0], true⟩ ∧
    (sysRollback (runTxWrites ⟨⟨some [0, 0, 0], true⟩, ⟨0, 3, some [0, 0, 0]⟩⟩
        [([7, 8], 1)])).2 = none := by
  have h := rollback_preserves_mapping [0, 0, 0] 0 3 ⟨0, 3, some [0, 0, 0]⟩
    [([7, 8], 1)] (by decide)
  exact ⟨h.2.1, h.2.2⟩

/-- C3: on a writable open mapping, begin a transaction over `[o, o + |P|)`,
write the pattern `P` into it at offset `o`, and commit: every step succeeds
and an immediate `ReadAt` on the parent mapping over that range returns
exactly `P` — the commit's bulk copy alone makes the writes visible, with no
sync involved. -/
theorem commit_makes_writes_visible (mem P buf : List Nat) (o : Nat)
    (hn : P.length ≠ 0) (hbound : o + P.length ≤ mem.length)
    (hbuf : buf.length = P.length)
    (hfit : (o : Int) + P.length < 2 ^ 63) :
    ∃ tx tx' m' tx'',
      NewTransaction ⟨some mem, true⟩ o P.length = .ok tx ∧
      Transaction.WriteAt tx P o = .ret tx' P.length none ∧
      Transaction.Commit tx' ⟨some mem, true⟩ = .ret m' tx'' none ∧
      m'.memory = some (mem.take o ++ P ++ mem.drop (o + P.length)) ∧
      Mapping.ReadAt m' buf o = (P, P.length, none) := by
  have hn' : 0 < P.length := Nat.pos_of_ne_zero hn
  have ho : o < mem.length := by omega
  have hsnaplen : ((mem.drop o).take P.length).length = P.length := by
    rw [List.length_take, List.length_drop]
    omega
  have hbegin := newTransaction_ok_case mem o P.length hfit (by omega)
    (by exact_mod_cast ho) hn (by exact_mod_cast hbound)
  rw [Int.toNat_natCast] at hbegin
  have hwrite : Transaction.WriteAt
      ⟨(o : Int), (o : Int) + P.length, some ((mem.drop o).take P.length)⟩
        P o =
      .ret ⟨(o : Int), (o : Int) + P.length, some P⟩ P.length none := by
    simp only [Transaction.WriteAt, sub_self, Int.toNat_zero, List.drop_zero,
      List.take_zero, List.nil_append]
    rw [if_neg (by omega), if_neg (by omega),
      goCopyCount_of_length_le (le_of_eq hsnaplen),
      goCopy_of_length_eq hsnaplen, hsnaplen, if_neg (lt_irrefl _)]
  have hdst : ((mem.take (o + P.length)).drop o) = (mem.drop o).take P.length := by
    rw [List.drop_take]
    congr 1
    omega
  have hcommit : Transaction.Commit
      ⟨(o : Int), (o : Int) + P.length, some P⟩ ⟨some mem, true⟩ =
      .ret ⟨some (mem.take o ++ P ++ mem.drop (o + P.length)), true⟩
        ⟨(o : Int), (o : Int) + P.length, none⟩ none := by
    have ht2 : ((o : Int) + P.length).toNat = o + P.length := by omega
    simp only [Transaction.Commit]
    rw [if_neg (by omega), Int.toNat_natCast, ht2, hdst,
      goCopyCount_of_length_le (le_of_eq hsnaplen),
      goCopy_of_length_eq hsnaplen, hsnaplen, if_neg (lt_irrefl _)]
  have hm'len : (mem.take o ++ P ++ mem.drop (o + P.length)).length =
      mem.length := by
    simp only [List.length_append, List.length_take, List.length_drop]
    omega
  have hread := Mapping.readAt_full
    (mem.take o ++ P ++ mem.drop (o + P.length)) buf o true
    (by rw [hm'len]; omega) (by rw [hm'len]; omega)
  have hdrop : (mem.take o ++ P ++ mem.drop (o + P.length)).drop o =
      P ++ mem.drop (o + P.length) := by
    rw [List.append_assoc]
    exact List.drop_left' (by rw [List.length_take]; omega)
  have htake : (P ++ mem.drop (o + P.length)).take buf.length = P := by
    rw [hbuf]
    exact List.take_left' rfl
  rw [hdrop, htake, hbuf] at hread
  exact ⟨_, _, _, _, hbegin, hwrite, hcommit, rfl, hread⟩

/-- Witness for `commit_makes_writes_visible`: writing `[7, 8]` through a
transaction over bytes 1-2 of a 4-byte zero mapping and committing makes an
immediate read of that range return `[7, 8]`. -/
theorem commit_makes_writes_visible_witness :
    ∃ tx tx' m' tx'',
      NewTransaction ⟨some [0, 0, 0, 0], true⟩ 1 2 = .ok tx ∧
      Transaction.WriteAt tx [7, 8] 1 = .ret tx' 2 none ∧
      Transaction.Commit tx' ⟨some [0, 0, 0, 0], true⟩ = .ret m' tx'' none ∧
      m'.memory = some [0, 7, 8, 0] ∧
      Mapping.ReadAt m' [0, 0] 1 = ([7, 8], 2, none) := by
  obtain ⟨tx, tx', m', tx'', h1, h2, h3, h4, h5⟩ :=
    commit_makes_writes_visible [0, 0, 0, 0] [7, 8] [0, 0] 1 (by decide)
      (by decide) (by decide) (by decide)
  exact ⟨tx, tx', m', tx'', h1, h2, h3, by rw [h4]; decide, h5⟩

/-- Witness for `mapping_readAt_writeAt_contract`: a concrete in-range read
and a concrete short write on a 3-byte writable mapping. -/
theorem mapping_readAt_writeAt_contract_witness :
    Mapping.ReadAt ⟨some [1, 2, 3], true⟩ [0, 0] 1 = ([2, 3], 2, none) ∧
    Mapping.WriteAt ⟨some [1, 2, 3], true⟩ [8, 9] 2 =
      (⟨some [1, 2, 8], true⟩, 1, some .eof) := by
  constructor
  · have h := (mapping_readAt_writeAt_contract [1, 2, 3] [0, 0] 1
      true).2.2.2.1 1 rfl (by decide)
    rw [h]
    decide
  · have h := (mapping_readAt_writeAt_contract [1, 2, 3] [8, 9] 2
      true).2.2.2.2 2 rfl (by decide)
    rw [h]
    decide

end Mmap

namespace Segment

theorem beBytes_length (w x : Nat) : (beBytes w x).length = w := by
  induction w generalizing x with
  | zero => rfl
  | succ w ih => simp [beBytes, ih]

theorem beBytes_foldl (w x a : Nat) :
    (beBytes w x).foldl (fun acc b => acc * 256 + b) a =
      a * 256 ^ w + x % 256 ^ w := by
  induction w generalizing a with
  | zero => simp [beBytes, Nat.mod_one]
  | succ w ih =>
    rw [beBytes, List.foldl_cons, ih, Nat.mod_pow_succ]
    ring

theorem beDecode_beBytes (w x : Nat) : beDecode (beBytes w x) = x % 256 ^ w := by
  unfold beDecode
  rw [beBytes_foldl]
  ring

theorem beBytes_mod (w x : Nat) : beBytes w (x % 256 ^ w) = beBytes w x := by
  induction w generalizing x with
  | zero => rfl
  | succ w ih =>
    rw [beBytes, beBytes]
    congr 1
    · rw [pow_succ, Nat.mod_mul_right_div_self,
        Nat.mod_mod_of_dvd _ (dvd_refl 256)]
    · calc beBytes w (x % 256 ^ (w + 1))
          = beBytes w (x % 256 ^ (w + 1) % 256 ^ w) := (ih _).symm
        _ = beBytes w (x % 256 ^ w) := by
            rw [Nat.mod_mod_of_dvd _ (pow_dvd_pow 256 (Nat.le_succ w))]
        _ = beBytes w x := ih x

/-- A full-width `Segment.read` from an open mapping: the slot's bytes are
returned with no error. -/
theorem read_mappingStore_full (mem : List Nat) (o w i : Nat) (hw : w ≠ 0)
    (hbound : o + w ≤ mem.length) :
    read mappingStore ⟨some mem, true⟩ (List.replicate w 0) o i =
      ((mem.drop o).take w, none) := by
  have hfull := Mmap.Mapping.readAt_full mem (List.replicate w 0) o true
    (by omega) (by rw [List.length_replicate]; omega)
  simp only [read, mappingStore, hfull, List.length_replicate]
  rw [if_neg (lt_irrefl _)]

/-- A full-width `Segment.write` of an encoded value to an open writable
mapping: the slot's bytes are replaced with no error. -/
theorem write_mappingStore_full (mem : List Nat) (o w x i : Nat) (hw : w ≠ 0)
    (hbound : o + w ≤ mem.length) :
    write mappingStore ⟨some mem, true⟩ (beBytes w x) o i =
      (⟨some (mem.take o ++ beBytes w x ++ mem.drop (o + w)), true⟩,
        none) := by
  have hlen := beBytes_length w x
  have hfull := Mmap.Mapping.writeAt_full mem (beBytes w x) o (by omega)
    (by rw [hlen]; omega)
  rw [hlen] at hfull
  simp only [write, mappingStore, hfull]
  rw [if_neg (by omega)]

theorem Value.toSlot_width (v : Value) : v.toSlot.width = v.width := by
  cases v <;> rfl

/-- `Set` of a single supported operand over an open writable mapping with
room for its width: the operand's big-endian bytes land at the offset. -/
theorem set_single (mem : List Nat) (o : Nat) (v : Value) (hw : v.width ≠ 0)
    (hbound : o + v.width ≤ mem.length) :
    Set mappingStore ⟨some mem, true⟩ o [v] =
      (⟨some (mem.take o ++ beBytes v.width v.payload ++
        mem.drop (o + v.width)), true⟩, none) := by
  cases v with
  | unsupported => exact absurd rfl hw
  | u8 x =>
    simp only [Value.width] at hbound ⊢
    simp only [Set, setLoop, Value.payload,
      write_mappingStore_full mem o 1 x 0 one_ne_zero hbound]
  | u16 x =>
    simp only [Value.width] at hbound ⊢
    simp only [Set, setLoop, Value.payload,
      write_mappingStore_full mem o 2 x 0 (by omega) hbound]
  | u32 x =>
    simp only [Value.width] at hbound ⊢
    simp only [Set, setLoop, Value.payload,
      write_mappingStore_full mem o 4 x 0 (by omega) hbound]
  | u64 x =>
    simp only [Value.width] at hbound ⊢
    simp only [Set, setLoop, Value.payload,
      write_mappingStore_full mem o 8 x 0 (by omega) hbound]

/-- `Get` of a single supported slot from an open mapping with room for its
width: the big-endian decoding of the slot's bytes is produced. -/
theorem get_single (mem : List Nat) (o : Nat) (s : Slot) (hw : s.width ≠ 0)
    (hbound : o + s.width ≤ mem.length) :
    Get mappingStore ⟨some mem, true⟩ o [s] =
      ([beDecode ((mem.drop o).take s.width)], none) := by
  cases s with
  | unsupported => exact absurd rfl hw
  | u8 =>
    simp only [Slot.width] at hbound ⊢
    simp only [Get, getLoop,
      read_mappingStore_full mem o 1 0 one_ne_zero hbound]
  | u16 =>
    simp only [Slot.width] at hbound ⊢
    simp only [Get, getLoop,
      read_mappingStore_full mem o 2 0 (by omega) hbound]
  | u32 =>
    simp only [Slot.width] at hbound ⊢
    simp only [Get, getLoop,
      read_mappingStore_full mem o 4 0 (by omega) hbound]
  | u64 =>
    simp only [Slot.width] at hbound ⊢
    simp only [Get, getLoop,
      read_mappingStore_full mem o 8 0 (by omega) hbound]

/-- C8: on a mapping-backed store, `Set` writes a supported value big-endian
at the given offset (the slot's bytes become `beBytes`, e.g.
`Set(0, uint16 0x0102)` leaves `[0x01, 0x02]`), and `Get` of the same width
at the same offset returns the value: `Get` after `Set` is the identity on
every supported value. -/
theorem set_get_roundtrip (mem : List Nat) (o : Nat) (v : Value)
    (hw : v.width ≠ 0) (hx : v.payload < 256 ^ v.width)
    (hbound : o + v.width ≤ mem.length) :
    ∃ m', Set mappingStore ⟨some mem, true⟩ o [v] = (m', none) ∧
      m'.memory = some (mem.take o ++ beBytes v.width v.payload ++
        mem.drop (o + v.width)) ∧
      Get mappingStore m' o [v.toSlot] = ([v.payload], none) := by
  refine ⟨_, set_single mem o v hw hbound, rfl, ?_⟩
  have hlen' : (mem.take o ++ beBytes v.width v.payload ++
      mem.drop (o + v.width)).length = mem.length := by
    simp only [List.length_append, List.length_take, List.length_drop,
      beBytes_length]
    omega
  have hget := get_single
    (mem.take o ++ beBytes v.width v.payload ++ mem.drop (o + v.width)) o
    v.toSlot (by rw [Value.toSlot_width]; exact hw)
    (by rw [Value.toSlot_width, hlen']; omega)
  rw [Value.toSlot_width] at hget
  have hslice : ((mem.take o ++ beBytes v.width v.payload ++
      mem.drop (o + v.width)).drop o).take v.width =
      beBytes v.width v.payload := by
    rw [List.append_assoc, List.drop_left' (by rw [List.length_take]; omega),
      List.take_left' (beBytes_length _ _)]
  rw [hslice, beDecode_beBytes, Nat.mod_eq_of_lt hx] at hget
  exact hget

/-- Witness for `set_get_roundtrip`: `Set(0, uint16 0x0102)` on a 3-byte zero
mapping leaves bytes `[1, 2, 0]` and `Get` returns `0x0102`. -/
theorem set_get_roundtrip_witness :
    ∃ m', Set mappingStore ⟨some [0, 0, 0], true⟩ 0 [.u16 0x0102] =
        (m', none) ∧
      m'.memory = some [1, 2, 0] ∧
      Get mappingStore m' 0 [Slot.u16] = ([0x0102], none) := by
  obtain ⟨m', h1, h2, h3⟩ := set_get_roundtrip [0, 0, 0] 0 (.u16 0x0102)
    (by decide) (by decide) (by decide)
  exact ⟨m', h1, by rw [h2]; decide, h3⟩

/-- `Inc` of a single supported operand on a slot holding `x`: the slot is
rewritten with the width-wrapped sum. -/
theorem inc_single (mem : List Nat) (o : Nat) (v : Value) (x : Nat)
    (hw : v.width ≠ 0) (hx : x < 256 ^ v.width)
    (hslot : (mem.drop o).take v.width = beBytes v.width x)
    (hbound : o + v.width ≤ mem.length) :
    Inc mappingStore ⟨some mem, true⟩ o [v] =
      (⟨some (mem.take o ++ beBytes v.width ((x + v.payload) % 256 ^ v.width)
        ++ mem.drop (o + v.width)), true⟩, none) := by
  cases v with
  | unsupported => exact absurd rfl hw
  | u8 d =>
    simp only [Value.width] at hbound hslot hx ⊢
    simp only [Inc, incLoop, Value.payload,
      read_mappingStore_full mem o 1 0 one_ne_zero hbound, hslot,
      beDecode_beBytes, Nat.mod_eq_of_lt hx,
      write_mappingStore_full mem o 1 (x + d) 0 one_ne_zero hbound,
      beBytes_mod]
  | u16 d =>
    simp only [Value.width] at hbound hslot hx ⊢
    simp only [Inc, incLoop, Value.payload,
      read_mappingStore_full mem o 2 0 (by omega) hbound, hslot,
      beDecode_beBytes, Nat.mod_eq_of_lt hx,
      write_mappingStore_full mem o 2 (x + d) 0 (by omega) hbound,
      beBytes_mod]
  | u32 d =>
    simp only [Value.width] at hbound hslot hx ⊢
    simp only [Inc, incLoop, Value.payload,
      read_mappingStore_full mem o 4 0 (by omega) hbound, hslot,
      beDecode_beBytes, Nat.mod_eq_of_lt hx,
      write_mappingStore_full mem o 4 (x + d) 0 (by omega) hbound,
      beBytes_mod]
  | u64 d =>
    simp only [Value.width] at hbound hslot hx ⊢
    simp only [Inc, incLoop, Value.payload,
      read_mappingStore_full mem o 8 0 (by omega) hbound, hslot,
      beDecode_beBytes, Nat.mod_eq_of_lt hx,
      write_mappingStore_full mem o 8 (x + d) 0 (by omega) hbound,
      beBytes_mod]

/-- `Dec` of a single supported operand on a slot holding `x`: the slot is
rewritten with the width-wrapped difference. -/
theorem dec_single (mem : List Nat) (o : Nat) (v : Value) (x : Nat)
    (hw : v.width ≠ 0) (hx : x < 256 ^ v.width)
    (hslot : (mem.drop o).take v.width = beBytes v.width x)
    (hbound : o + v.width ≤ mem.length) :
    Dec mappingStore ⟨some mem, true⟩ o [v] =
      (⟨some (mem.take o ++ beBytes v.width (wsub v.width x v.payload)
        ++ mem.drop (o + v.width)), true⟩, none) := by
  cases v with
  | unsupported => exact absurd rfl hw
  | u8 d =>
    simp only [Value.width] at hbound hslot hx ⊢
    simp only [Dec, decLoop, Value.payload,
      read_mappingStore_full mem o 1 0 one_ne_zero hbound, hslot,
      beDecode_beBytes, Nat.mod_eq_of_lt hx,
      write_mappingStore_full mem o 1 (wsub 1 x d) 0 one_ne_zero hbound]
  | u16 d =>
    simp only [Value.width] at hbound hslot hx ⊢
    simp only [Dec, decLoop, Value.payload,
      read_mappingStore_full mem o 2 0 (by omega) hbound, hslot,
      beDecode_beBytes, Nat.mod_eq_of_lt hx,
      write_mappingStore_full mem o 2 (wsub 2 x d) 0 (by omega) hbound]
  | u32 d =>
    simp only [Value.width] at hbound hslot hx ⊢
    simp only [Dec, decLoop, Value.payload,
      read_mappingStore_full mem o 4 0 (by omega) hbound, hslot,
      beDecode_beBytes, Nat.mod_eq_of_lt hx,
      write_mappingStore_full mem o 4 (wsub 4 x d) 0 (by omega) hbound]
  | u64 d =>
    simp only [Value.width] at hbound hslot hx ⊢
    simp only [Dec, decLoop, Value.payload,
      read_mappingStore_full mem o 8 0 (by omega) hbound, hslot,
      beDecode_beBytes, Nat.mod_eq_of_lt hx,
      write_mappingStore_full mem o 8 (wsub 8 x d) 0 (by omega) hbound]

/-- C9: on a slot of any supported width holding `x`, `Inc` with delta `d`
stores `(x + d) mod 2^w` and `Dec` with delta `d` stores `(x - d) mod 2^w`
(`wsub`), the width's native wraparound. -/
theorem inc_dec_wraparound (mem : List Nat) (o : Nat) (v : Value) (x : Nat)
    (hw : v.width ≠ 0) (hx : x < 256 ^ v.width)
    (hslot : (mem.drop o).take v.width = beBytes v.width x)
    (hbound : o + v.width ≤ mem.length) :
    Inc mappingStore ⟨some mem, true⟩ o [v] =
      (⟨some (mem.take o ++ beBytes v.width ((x + v.payload) % 256 ^ v.width)
        ++ mem.drop (o + v.width)), true⟩, none) ∧
    Dec mappingStore ⟨some mem, true⟩ o [v] =
      (⟨some (mem.take o ++ beBytes v.width (wsub v.width x v.payload)
        ++ mem.drop (o + v.width)), true⟩, none) :=
  ⟨inc_single mem o v x hw hx hslot hbound,
    dec_single mem o v x hw hx hslot hbound⟩

/-- Witness for `inc_dec_wraparound`: on a zero-initialized 8-bit slot,
`Inc(0, 255)` then `Inc(0, 1)` wraps back to 0, and `Dec(0, 1)` on a
zero-initialized 16-bit slot stores `0xFFFF`. -/
theorem inc_dec_wraparound_witness :
    Inc mappingStore ⟨some [0], true⟩ 0 [.u8 255] =
      (⟨some [255], true⟩, none) ∧
    Inc mappingStore ⟨some [255], true⟩ 0 [.u8 1] =
      (⟨some [0], true⟩, none) ∧
    Dec mappingStore ⟨some [0, 0], true⟩ 0 [.u16 1] =
      (⟨some [255, 255], true⟩, none) := by
  have h1 := (inc_dec_wraparound [0] 0 (.u8 255) 0 (by decide) (by decide)
    (by decide) (by decide)).1
  have h2 := (inc_dec_wraparound [255] 0 (.u8 1) 255 (by decide) (by decide)
    (by decide) (by decide)).1
  have h3 := (inc_dec_wraparound [0, 0] 0 (.u16 1) 0 (by decide) (by decide)
    (by decide) (by decide)).2
  simp only [Nat.cast_zero] at h1 h2 h3
  refine ⟨?_, ?_, ?_⟩
  · rw [h1]
    decide
  · rw [h2]
    decide
  · rw [h3]
    decide

theorem encodedSize_cons (val : Value) (rest : List Value) :
    encodedSize (val :: rest) = val.width + encodedSize rest := by
  simp [encodedSize]

/-- The `Set` loop splits along any division of its operand list: a
successful first part hands its mutated store, advanced offset and advanced
operand index to the rest; a failed first part is the whole result. -/
theorem setLoop_split {σ : Type} (st : Store σ) (v₁ v₂ : List Value) (s : σ)
    (offset : Int) (i : Nat) :
    setLoop st s offset i (v₁ ++ v₂) =
      match setLoop st s offset i v₁ with
      | (s₁, none) =>
        setLoop st s₁ (offset + encodedSize v₁) (i + v₁.length) v₂
      | (s₁, some e) => (s₁, some e) := by
  induction v₁ generalizing s offset i with
  | nil =>
    simp [setLoop, encodedSize]
  | cons val rest ih =>
    cases val with
    | unsupported => rfl
    | u8 x =>
      simp only [List.cons_append, setLoop]
      rcases hw : write st s (beBytes 1 x) offset i with ⟨s', e⟩
      cases e with
      | some e => rfl
      | none =>
        dsimp only [List.append_eq]
        rw [ih]
        rcases hr : setLoop st s' (offset + 1) (i + 1) rest with ⟨s₁, e₁⟩
        cases e₁ with
        | some e₁ => rfl
        | none =>
          dsimp only
          have ho : offset + ((encodedSize (Value.u8 x :: rest) : Nat) : Int) =
              offset + 1 + ((encodedSize rest : Nat) : Int) := by
            rw [encodedSize_cons]
            push_cast [Value.width]
            ring
          have hi : i + (Value.u8 x :: rest).length = i + 1 + rest.length := by
            simp only [List.length_cons]
            omega
          rw [ho, hi]
    | u16 x =>
      simp only [List.cons_append, setLoop]
      rcases hw : write st s (beBytes 2 x) offset i with ⟨s', e⟩
      cases e with
      | some e => rfl
      | none =>
        dsimp only [List.append_eq]
        rw [ih]
        rcases hr : setLoop st s' (offset + 2) (i + 1) rest with ⟨s₁, e₁⟩
        cases e₁ with
        | some e₁ => rfl
        | none =>
          dsimp only
          have ho : offset + ((encodedSize (Value.u16 x :: rest) : Nat) : Int) =
              offset + 2 + ((encodedSize rest : Nat) : Int) := by
            rw [encodedSize_cons]
            push_cast [Value.width]
            ring
          have hi : i + (Value.u16 x :: rest).length = i + 1 + rest.length := by
            simp only [List.length_cons]
            omega
          rw [ho, hi]
    | u32 x =>
      simp only [List.cons_append, setLoop]
      rcases hw : write st s (beBytes 4 x) offset i with ⟨s', e⟩
      cases e with
      | some e => rfl
      | none =>
        dsimp only [List.append_eq]
        rw [ih]
        rcases hr : setLoop st s' (offset + 4) (i + 1) rest with ⟨s₁, e₁⟩
        cases e₁ with
        | some e₁ => rfl
        | none =>
          dsimp only
          have ho : offset + ((encodedSize (Value.u32 x :: rest) : Nat) : Int) =
              offset + 4 + ((encodedSize rest : Nat) : Int) := by
            rw [encodedSize_cons]
            push_cast [Value.width]
            ring
          have hi : i + (Value.u32 x :: rest).length = i + 1 + rest.length := by
            simp only [List.length_cons]
            omega
          rw [ho, hi]
    | u64 x =>
      simp only [List.cons_append, setLoop]
      rcases hw : write st s (beBytes 8 x) offset i with ⟨s', e⟩
      cases e with
      | some e => rfl
      | none =>
        dsimp only [List.append_eq]
        rw [ih]
        rcases hr : setLoop st s' (offset + 8) (i + 1) rest with ⟨s₁, e₁⟩
        cases e₁ with
        | some e₁ => rfl
        | none =>
          dsimp only
          have ho : offset + ((encodedSize (Value.u64 x :: rest) : Nat) : Int) =
              offset + 8 + ((encodedSize rest : Nat) : Int) := by
            rw [encodedSize_cons]
            push_cast [Value.width]
            ring
          have hi : i + (Value.u64 x :: rest).length = i + 1 + rest.length := by
            simp only [List.length_cons]
            omega
          rw [ho, hi]

/-- C10: `Set` runs its operand list strictly left to right and stops at the
first failure without undoing anything.  Splitting the operand list anywhere:
if the first part succeeds, the remainder runs from the store state the
first part produced, at the offset advanced by the first part's encoded
width and with the operand index advanced by its length — every operand
before a failure is already fully encoded and written when `Set` returns; if
the first part fails, its result, errored operand and partially updated
store included, is the whole call's result. -/
theorem set_split {σ : Type} (st : Store σ) (v₁ v₂ : List Value) (s : σ)
    (offset : Int) :
    Set st s offset (v₁ ++ v₂) =
      match Set st s offset v₁ with
      | (s₁, none) => setLoop st s₁ (offset + encodedSize v₁) v₁.length v₂
      | (s₁, some e) => (s₁, some e) := by
  have h := setLoop_split st v₁ v₂ s offset 0
  simpa [Set, Nat.zero_add] using h

/-- C2: `Set` of a two-byte `uint16` operand over a store whose `WriteAt`
writes only one byte and returns `(1, nil)` succeeds — `Segment.write` flags
`ErrorPartialWrite` only when fewer than one byte was written (`n < 1`), not
when fewer than the operand's width were — where the claim demands
`PartialWrite` with index 0, offset 0 and one byte written. -/
theorem set_short_write_unflagged :
    Set oneByteStore [0, 0, 0] 0 [.u16 0x0102] = ([1, 0, 0], none) ∧
    (Set oneByteStore [0, 0, 0] 0 [.u16 0x0102]).2 ≠
      some (.partialWrite 0 0 1) := by
  decide

end Segment
